import Mathlib

/-!
# Site statistics and the polling monitor

A shallow embedding of `internal/site/site.go` and `internal/monitor/monitor.go`.

Conventions of the embedding:

* `time.Duration`, `int64` and `int` (64-bit targets) are integers that wrap around
  at 64 bits; every arithmetic operation of the source is followed by `wrap64`.
* `time.Time` is an integer number of nanoseconds on the clock; the clock reading
  `time.Now()` is an explicit argument of each operation that reads it.
* An integer division by zero panics in Go; the operations that can reach one
  return `Option`, `none` standing for the panic.
* The mutex of a `Site` serialises the operations; each operation is one atomic
  state transition of the embedding.
-/

namespace CatchHotels

/-! ## Machine integers and time -/

/-- Two's-complement wrap-around to a signed 64-bit integer. -/
def wrap64 (x : Int) : Int := (x + 2 ^ 63) % 2 ^ 64 - 2 ^ 63

/-- The values a signed 64-bit integer can hold. -/
def inInt64 (x : Int) : Prop := -(2 ^ 63) ≤ x ∧ x < 2 ^ 63

instance (x : Int) : Decidable (inInt64 x) := by unfold inInt64; infer_instance

/-- Go's `/` on signed 64-bit integers: truncation toward zero, a panic on a zero
divisor (`none`), and wrap-around for the one overflowing quotient. -/
def div64 (a b : Int) : Option Int :=
  if b = 0 then none else some (wrap64 (Int.tdiv a b))

/-- The constant `time.Millisecond`, in nanoseconds. -/
def millisecond : Int := 1000000

/-- The constant `time.Second`, in nanoseconds. -/
def second : Int := 1000000000

/-- The largest `time.Duration`. -/
def maxDuration : Int := 2 ^ 63 - 1

/-- The smallest `time.Duration`. -/
def minDuration : Int := -(2 ^ 63)

/-- `t.Sub(u)`: the difference of two clock readings, saturated to the range of
`time.Duration`. -/
def timeSub (t u : Int) : Int :=
  if t - u > maxDuration then maxDuration
  else if t - u < minDuration then minDuration
  else t - u

/-- `time.Since(t)` evaluated when the clock reads `now`. -/
def timeSince (now t : Int) : Int := timeSub now t

/-! ## `internal/site/site.go` -/

/-- The `Site` record (the mutex is not part of the sequential state). -/
structure Site where
  URL : String
  MinDuration : Int
  AvgDuration : Int
  MaxDuration : Int
  MinSize : Int
  AvgSize : Int
  MaxSize : Int
  SuccessCount : Int
  TotalCount : Int
  lastRequest : Int
deriving DecidableEq, Repr

/-- `NewSite(url)` when the clock reads `now`: every statistic is zero and
`lastRequest` lies ten seconds in the past. -/
def NewSite (url : String) (now : Int) : Site :=
  { URL := url
    MinDuration := 0, AvgDuration := 0, MaxDuration := 0
    MinSize := 0, AvgSize := 0, MaxSize := 0
    SuccessCount := 0, TotalCount := 0
    lastRequest := now + (-10) * second }

/-- `s.IsReadyForRequest()` when the clock reads `now`. -/
def IsReadyForRequest (s : Site) (now : Int) : Bool :=
  decide (timeSince now s.lastRequest ≥ 5 * second)

/-- The expression `((avg * T(successCount-1)) + value) / T(successCount)` of
`UpdateStats`, with `sc` the already incremented success counter. -/
def runningAvg (avg sc value : Int) : Option Int :=
  div64 (wrap64 (wrap64 (avg * wrap64 (sc - 1)) + value)) sc

/-- `s.UpdateStats(duration, size, success)` when the clock reads `now`.
The result is `none` when the division by the success counter panics. -/
def UpdateStats (s : Site) (now duration size : Int) (success : Bool) : Option Site :=
  let total := wrap64 (s.TotalCount + 1)
  if success then
    let sc := wrap64 (s.SuccessCount + 1)
    let minD := if s.MinDuration = 0 ∨ duration < s.MinDuration then duration else s.MinDuration
    let maxD := if duration > s.MaxDuration then duration else s.MaxDuration
    match runningAvg s.AvgDuration sc duration with
    | none => none
    | some avgD =>
      let minS := if s.MinSize = 0 ∨ size < s.MinSize then size else s.MinSize
      let maxS := if size > s.MaxSize then size else s.MaxSize
      match runningAvg s.AvgSize sc size with
      | none => none
      | some avgS =>
        some { URL := s.URL
               MinDuration := minD, AvgDuration := avgD, MaxDuration := maxD
               MinSize := minS, AvgSize := avgS, MaxSize := maxS
               SuccessCount := sc, TotalCount := total
               lastRequest := now }
  else
    some { s with TotalCount := total, lastRequest := now }

/-- The closure `formatDuration` of `GetStats`. `d.Milliseconds()` is the
truncated quotient by `1e6`; its magnitude is below `2^53`, so the conversion to
`float64` is exact and `%.2f` prints the integer followed by `.00`. -/
def formatDuration (d : Int) : String :=
  if d = 0 then "n/a" else toString (Int.tdiv d 1000000) ++ ".00 ms"

/-- The closure `formatSize` of `GetStats`. -/
def formatSize (b : Int) : String :=
  if b ≤ 0 then "n/a" else toString b ++ " B"

/-- `s.GetStats()`. -/
def GetStats (s : Site) : List String :=
  [ s.URL,
    formatDuration s.MinDuration,
    formatDuration s.AvgDuration,
    formatDuration s.MaxDuration,
    formatSize s.MinSize,
    formatSize s.AvgSize,
    formatSize s.MaxSize,
    toString s.SuccessCount ++ "/" ++ toString s.TotalCount ]

/-- One call `UpdateStats(duration, size, success)` together with the clock
reading `now` at which it stores `lastRequest`. -/
structure Call where
  now : Int
  duration : Int
  size : Int
  success : Bool
deriving DecidableEq, Repr

/-- A sequence of `UpdateStats` calls applied one after the other. -/
def applyCalls : Site → List Call → Option Site
  | s, [] => some s
  | s, c :: cs =>
    match UpdateStats s c.now c.duration c.size c.success with
    | none => none
    | some s1 => applyCalls s1 cs

/-- The durations of the successful calls of a history, in order. -/
def successDurations (cs : List Call) : List Int :=
  (cs.filter (fun c => c.success)).map (fun c => c.duration)

/-- The sizes of the successful calls of a history, in order. -/
def successSizes (cs : List Call) : List Int :=
  (cs.filter (fun c => c.success)).map (fun c => c.size)

/-- The number of successful calls of a history. -/
def successes (cs : List Call) : Nat := (cs.filter (fun c => c.success)).length

/-! ## `internal/monitor/monitor.go` -/

/-- The Go map `sites` as an association list with one entry per key:
`mapGet` is the lookup `sites[url]`, `none` being the nil pointer of a missing key. -/
def mapGet : List (String × Site) → String → Option Site
  | [], _ => none
  | (k, v) :: rest, url => if k = url then some v else mapGet rest url

/-- The assignment `sites[url] = v`: an existing key is overwritten, a new key is added. -/
def mapSet : List (String × Site) → String → Site → List (String × Site)
  | [], url, v => [(url, v)]
  | (k, w) :: rest, url, v => if k = url then (k, v) :: rest else (k, w) :: mapSet rest url v

/-- The `Monitor` record: the registered URLs, the map of sites, whether `ctx`
has been cancelled, and the two configured time spans. -/
structure Monitor where
  urls : List String
  sites : List (String × Site)
  cancelled : Bool
  interval : Int
  timeout : Int
deriving DecidableEq, Repr

/-- The loop `for _, url := range urls { sites[url] = site.NewSite(url) }` of
`New`; `clock i` is the clock reading at the iteration of index `i`. -/
def newSites (clock : Nat → Int) : List String → Nat → List (String × Site) → List (String × Site)
  | [], _, acc => acc
  | url :: rest, i, acc => newSites clock rest (i + 1) (mapSet acc url (NewSite url (clock i)))

/-- `New(urls)`. -/
def New (urls : List String) (clock : Nat → Int) : Monitor :=
  { urls := urls
    sites := newSites clock urls 0 []
    cancelled := false
    interval := 5 * second
    timeout := 10 * second }

/-- The loop of `ToSummaries` over the URLs still to visit; dereferencing the
nil pointer of a missing key panics (`none`). -/
def summariesOf (sites : List (String × Site)) : List String → Option (List (List String))
  | [] => some []
  | url :: rest =>
    match mapGet sites url with
    | none => none
    | some s =>
      match summariesOf sites rest with
      | none => none
      | some rows => some (GetStats s :: rows)

/-- `m.ToSummaries()`. -/
def ToSummaries (m : Monitor) : Option (List (List String)) :=
  summariesOf m.sites m.urls

/-- The one way a running monitor changes: a worker's call
`m.sites[url].UpdateStats(duration, size, success)`. The site is shared through a
pointer, so the map entry of `url` holds the updated site afterwards. -/
def updateSite (m : Monitor) (url : String) (c : Call) : Option Monitor :=
  match mapGet m.sites url with
  | none => none
  | some s =>
    match UpdateStats s c.now c.duration c.size c.success with
    | none => none
    | some s1 => some { m with sites := mapSet m.sites url s1 }

/-- A sequence of such calls by the workers, in the order in which the mutexes
serialise them. -/
def applyUpdates : Monitor → List (String × Call) → Option Monitor
  | m, [] => some m
  | m, (url, c) :: rest =>
    match updateSite m url c with
    | none => none
    | some m1 => applyUpdates m1 rest

/-- What one HTTP exchange hands to the worker: an error of
`http.NewRequestWithContext`, an error of `client.Do`, or a response with its
status code and its body (`none` for a nil `Body`, otherwise the bytes that
`io.ReadAll` returned). -/
inductive Reply where
  | requestError
  | transportError
  | response (status : Int) (body : Option (List UInt8))
deriving DecidableEq, Repr

/-- The arguments of the one `UpdateStats` call that the worker loop makes for an
HTTP result, at each of its three call sites: `start` is the clock reading at
`start := time.Now()`, `finish` the one at `time.Since(start)` and `now` the one
inside `UpdateStats`. The result is the call `UpdateStats(duration, size, success)`
as a value. -/
def workerCall (start finish now : Int) (r : Reply) : Call :=
  match r with
  | .requestError =>
    { now := now, duration := timeSince finish start, size := -1, success := false }
  | .transportError =>
    { now := now, duration := timeSince finish start, size := -1, success := false }
  | .response status body =>
    let size : Int :=
      match body with
      | none => -1
      | some b => (b.length : Int)
    let success := decide (status ≥ 200 ∧ status < 400)
    { now := now, duration := timeSince finish start, size := size, success := success }

/-- The part of the worker loop from `start := time.Now()` to the return of
`UpdateStats`: the call `workerCall` applied to the site. -/
def workerRequest (s : Site) (start finish now : Int) (r : Reply) : Option Site :=
  UpdateStats s (workerCall start finish now r).now (workerCall start finish now r).duration
    (workerCall start finish now r).size (workerCall start finish now r).success

/-- The clock readings and the HTTP result of one poll. -/
structure Poll where
  start : Int
  finish : Int
  now : Int
  reply : Reply
deriving DecidableEq, Repr

/-- The `UpdateStats` call that the worker makes for one poll. -/
def pollCall (p : Poll) : Call := workerCall p.start p.finish p.now p.reply

/-- A sequence of polls of one site, one after the other. -/
def applyPolls : Site → List Poll → Option Site
  | s, [] => some s
  | s, p :: ps =>
    match workerRequest s p.start p.finish p.now p.reply with
    | none => none
    | some s1 => applyPolls s1 ps

/-- The call `client.Do(req)` of the worker. The request is built by
`http.NewRequestWithContext(m.ctx, "GET", url, nil)`, so it carries the monitor's
own context, and `net/http` ends a request whose context is cancelled before the
response has arrived with the context's error. `ctxCancelled` tells whether that
happens; `server` is what the exchange yields when it is left to run. -/
def clientDo (ctxCancelled : Bool) (server : Reply) : Reply :=
  match server with
  | .requestError => .requestError
  | .transportError => .transportError
  | .response status body => if ctxCancelled then .transportError else .response status body

/-- The result of one pass through the worker loop. -/
inductive Pass where
  | exited
  | slept
  | polled (m : Monitor)
  | panicked
deriving DecidableEq, Repr

/-- One pass through the `for` loop of `worker(url)`: the `select` on
`m.ctx.Done()`, the readiness check at the clock reading `ready`, and the request.
`cancelInFlight` tells whether `m.cancel()` runs while `client.Do` is still waiting
for the response, before its headers have arrived. A cancellation that lands
later, during `io.ReadAll`, is not this case: `client.Do` has returned by then and
the reply of the pass is the response with the bytes read so far. -/
def workerPass (m : Monitor) (url : String) (ready : Int) (cancelInFlight : Bool)
    (p : Poll) : Pass :=
  if m.cancelled then .exited
  else
    match mapGet m.sites url with
    | none => .panicked
    | some s =>
      if !IsReadyForRequest s ready then .slept
      else
        match workerRequest s p.start p.finish p.now (clientDo cancelInFlight p.reply) with
        | none => .panicked
        | some s1 =>
          .polled { m with sites := mapSet m.sites url s1
                           cancelled := m.cancelled || cancelInFlight }

/-- One call of the render sink `ui.DisplayTable(data, clearScreen)`. -/
structure Frame where
  rows : List (List String)
  clearScreen : Bool
deriving DecidableEq, Repr

/-- `m.Stop()` for a monitor with the one worker `url`, called while that worker
has a request in flight whose response headers have not arrived yet: `m.cancel()`
runs during `client.Do`, the worker finishes its pass and leaves the loop at the
next `select`, `m.wg.Wait()` returns and `ui.DisplayTable(m.ToSummaries(), false)`
renders the final table. The result is the frame handed to `ui.DisplayTable`. -/
def stopInFlight (m : Monitor) (url : String) (ready : Int) (p : Poll) : Option Frame :=
  match workerPass m url ready true p with
  | .polled m1 =>
    match workerPass m1 url ready false p with
    | .exited =>
      match ToSummaries m1 with
      | none => none
      | some rows => some { rows := rows, clearScreen := false }
    | _ => none
  | _ => none

/-- The 13 bytes of the body `Slow response` of `TestMonitor_GracefulShutdown`. -/
def slowBody : List UInt8 :=
  [83, 108, 111, 119, 32, 114, 101, 115, 112, 111, 110, 115, 101]

/-- The 21 bytes of the body `Internal Server Error` of `TestMonitor_FailedRequest`. -/
def errorBody : List UInt8 :=
  [73, 110, 116, 101, 114, 110, 97, 108, 32, 83, 101, 114, 118, 101, 114, 32, 69, 114, 114,
    111, 114]

/-! ## Notions of the specification -/

/-- The value `m` is the smallest element of `xs`. -/
def isSmallestOf (m : Int) (xs : List Int) : Prop := m ∈ xs ∧ ∀ x ∈ xs, m ≤ x

instance (m : Int) (xs : List Int) : Decidable (isSmallestOf m xs) := by
  unfold isSmallestOf; infer_instance

/-- The value `m` is the largest element of `xs`. -/
def isLargestOf (m : Int) (xs : List Int) : Prop := m ∈ xs ∧ ∀ x ∈ xs, x ≤ m

instance (m : Int) (xs : List Int) : Decidable (isLargestOf m xs) := by
  unfold isLargestOf; infer_instance

/-- The arithmetic mean recomputed from the full history, in the integer
representation: the sum of the recorded values divided by their count. -/
def meanOfHistory (xs : List Int) : Int := Int.tdiv xs.sum xs.length

/-- The two successful calls of the test scenario of `TestSite_UpdateStats`. -/
def scenarioSuccesses : List Call :=
  [ { now := 1, duration := 100 * millisecond, size := 1000, success := true },
    { now := 2, duration := 200 * millisecond, size := 500, success := true } ]

/-- The three calls of the test scenario of `TestSite_UpdateStats`. -/
def scenarioCalls : List Call :=
  scenarioSuccesses ++ [ { now := 3, duration := 50 * millisecond, size := 0, success := false } ]

/-! ## Basic facts about the machine integers -/

theorem wrap64_of_inInt64 {x : Int} (h : inInt64 x) : wrap64 x = x := by
  unfold inInt64 at h
  unfold wrap64
  rw [Int.emod_eq_of_lt] <;> omega

theorem wrap64_inInt64 (x : Int) : inInt64 (wrap64 x) := by
  unfold inInt64 wrap64
  omega

/-! ## One call of `UpdateStats` -/

theorem UpdateStats_failure (s : Site) (now duration size : Int) :
    UpdateStats s now duration size false =
      some { s with TotalCount := wrap64 (s.TotalCount + 1), lastRequest := now } := rfl

theorem runningAvg_eq {avg sc value : Int} (h : sc ≠ 0) :
    runningAvg avg sc value =
      some (wrap64 (Int.tdiv (wrap64 (wrap64 (avg * wrap64 (sc - 1)) + value)) sc)) := by
  simp [runningAvg, div64, h]

theorem UpdateStats_success (s : Site) (now duration size : Int)
    (h : wrap64 (s.SuccessCount + 1) ≠ 0) :
    ∃ s1, UpdateStats s now duration size true = some s1 ∧
      s1.URL = s.URL ∧
      s1.MinDuration = (if s.MinDuration = 0 ∨ duration < s.MinDuration then duration
        else s.MinDuration) ∧
      s1.MaxDuration = (if duration > s.MaxDuration then duration else s.MaxDuration) ∧
      runningAvg s.AvgDuration (wrap64 (s.SuccessCount + 1)) duration = some s1.AvgDuration ∧
      s1.MinSize = (if s.MinSize = 0 ∨ size < s.MinSize then size else s.MinSize) ∧
      s1.MaxSize = (if size > s.MaxSize then size else s.MaxSize) ∧
      runningAvg s.AvgSize (wrap64 (s.SuccessCount + 1)) size = some s1.AvgSize ∧
      s1.SuccessCount = wrap64 (s.SuccessCount + 1) ∧
      s1.TotalCount = wrap64 (s.TotalCount + 1) ∧
      s1.lastRequest = now := by
  simp [UpdateStats, runningAvg_eq h]

theorem applyCalls_counts (cs : List Call) :
    ∀ s : Site, 0 ≤ s.SuccessCount → s.SuccessCount ≤ s.TotalCount →
      s.TotalCount + cs.length < 2 ^ 63 →
      ∃ s1, applyCalls s cs = some s1 ∧
        s1.TotalCount = s.TotalCount + cs.length ∧
        s1.SuccessCount = s.SuccessCount + successes cs ∧
        s1.URL = s.URL := by
  induction cs with
  | nil => intro s _ _ _; exact ⟨s, rfl, by simp, by simp [successes], rfl⟩
  | cons c cs ih =>
    intro s h0 hle hb
    simp only [List.length_cons, Nat.cast_add, Nat.cast_one] at hb
    have hsl : (successes cs : Int) ≤ cs.length := by
      unfold successes; exact_mod_cast List.length_filter_le _ _
    have hT : wrap64 (s.TotalCount + 1) = s.TotalCount + 1 :=
      wrap64_of_inInt64 (by unfold inInt64; omega)
    have hS : wrap64 (s.SuccessCount + 1) = s.SuccessCount + 1 :=
      wrap64_of_inInt64 (by unfold inInt64; omega)
    cases hc : c.success with
    | false =>
      obtain ⟨s2, h2, ht, hs, hu⟩ := ih { s with TotalCount := wrap64 (s.TotalCount + 1), lastRequest := c.now }
        (by simpa using h0) (by simp only [hT]; omega) (by simp only [hT]; omega)
      refine ⟨s2, ?_, ?_, ?_, ?_⟩
      · simp only [applyCalls, hc, UpdateStats_failure]; exact h2
      · rw [ht]; simp only [hT, List.length_cons, Nat.cast_add, Nat.cast_one]; omega
      · rw [hs]; simp [successes, hc]
      · rw [hu]
    | true =>
      obtain ⟨s1, h1, hu1, -, -, -, -, -, -, hsc, htc, -⟩ :=
        UpdateStats_success s c.now c.duration c.size (by rw [hS]; omega)
      obtain ⟨s2, h2, ht, hs, hu⟩ := ih s1 (by rw [hsc, hS]; omega) (by rw [hsc, htc, hS, hT]; omega)
        (by rw [htc, hT]; omega)
      refine ⟨s2, ?_, ?_, ?_, ?_⟩
      · simp only [applyCalls, hc, h1]; exact h2
      · rw [ht, htc, hT]; simp only [List.length_cons, Nat.cast_add, Nat.cast_one]; omega
      · rw [hs, hsc, hS]; simp [successes, hc]; omega
      · rw [hu, hu1]

theorem UpdateStats_some {s : Site} {now duration size : Int} {success : Bool} {s1 : Site}
    (h : UpdateStats s now duration size success = some s1) :
    s1.URL = s.URL ∧
    s1.MinDuration = (if success then
        (if s.MinDuration = 0 ∨ duration < s.MinDuration then duration else s.MinDuration)
      else s.MinDuration) ∧
    s1.MaxDuration = (if success then
        (if duration > s.MaxDuration then duration else s.MaxDuration)
      else s.MaxDuration) ∧
    s1.MinSize = (if success then
        (if s.MinSize = 0 ∨ size < s.MinSize then size else s.MinSize)
      else s.MinSize) ∧
    s1.MaxSize = (if success then
        (if size > s.MaxSize then size else s.MaxSize)
      else s.MaxSize) ∧
    s1.lastRequest = now := by
  cases success with
  | false =>
    rw [UpdateStats_failure] at h
    cases h
    simp
  | true =>
    by_cases hz : wrap64 (s.SuccessCount + 1) = 0
    · simp [UpdateStats, runningAvg, div64, hz] at h
    · obtain ⟨s2, h2, hu, hmin, hmax, -, hmins, hmaxs, -, -, -, hl⟩ :=
        UpdateStats_success s now duration size hz
      rw [h2] at h
      cases h
      simp [hu, hmin, hmax, hmins, hmaxs, hl]

/-! ## Sequences of calls: minimum and maximum -/

theorem applyCalls_cons_some {s : Site} {c : Call} {cs : List Call} {s2 : Site}
    (h : applyCalls s (c :: cs) = some s2) :
    ∃ s1, UpdateStats s c.now c.duration c.size c.success = some s1 ∧
      applyCalls s1 cs = some s2 := by
  simp only [applyCalls] at h
  cases h1 : UpdateStats s c.now c.duration c.size c.success with
  | none => rw [h1] at h; cases h
  | some s1 => rw [h1] at h; exact ⟨s1, rfl, h⟩

/-- The lazy minimum of `UpdateStats`, followed along a history, for any pair of a
statistic `f` and a call value `g` that `UpdateStats` updates by that rule. -/
theorem applyCalls_min (f : Site → Int) (g : Call → Int)
    (hstep : ∀ s c s1, UpdateStats s c.now c.duration c.size c.success = some s1 →
      f s1 = if c.success then (if f s = 0 ∨ g c < f s then g c else f s) else f s)
    (cs : List Call) :
    ∀ s s2, 0 ≤ f s → (∀ c ∈ cs, c.success = true → 0 < g c) →
      applyCalls s cs = some s2 →
      (∀ x ∈ (cs.filter (fun c => c.success)).map g, f s2 ≤ x) ∧
      (f s2 = f s ∨ f s2 ∈ (cs.filter (fun c => c.success)).map g) ∧
      (0 < f s → 0 < f s2 ∧ f s2 ≤ f s) ∧
      ((cs.filter (fun c => c.success)).map g ≠ [] → 0 < f s2) := by
  induction cs with
  | nil =>
    intro s s2 _ _ h
    simp only [applyCalls, Option.some.injEq] at h
    subst h
    simp
  | cons c cs ih =>
    intro s s2 h0 hpos h
    obtain ⟨s1, h1, h2⟩ := applyCalls_cons_some h
    have hf := hstep s c s1 h1
    have hpos2 : ∀ c ∈ cs, c.success = true → 0 < g c :=
      fun d hd => hpos d (List.mem_cons_of_mem _ hd)
    cases hc : c.success with
    | false =>
      rw [hc] at hf
      simp only [Bool.false_eq_true, if_false] at hf
      have := ih s1 s2 (by rw [hf]; exact h0) hpos2 h2
      simpa [List.filter_cons, hc, hf] using this
    | true =>
      have hg : 0 < g c := hpos c (List.mem_cons_self _ _) hc
      rw [hc] at hf
      simp only [if_true] at hf
      have hf1 : 0 < f s1 ∧ f s1 ≤ g c ∧ (f s1 = g c ∨ (f s1 = f s ∧ 0 < f s)) ∧
          (0 < f s → f s1 ≤ f s) := by
        rw [hf]
        split_ifs with hcond
        · refine ⟨hg, le_refl _, Or.inl rfl, fun hp => ?_⟩
          rcases hcond with hcond | hcond <;> omega
        · push_neg at hcond
          refine ⟨by omega, by omega, Or.inr ⟨rfl, by omega⟩, fun _ => le_refl _⟩
      obtain ⟨hpos1, hle1, hor1, hmono1⟩ := hf1
      obtain ⟨hA, hB, hC, -⟩ := ih s1 s2 (le_of_lt hpos1) hpos2 h2
      obtain ⟨hC1, hC2⟩ := hC hpos1
      simp only [List.filter_cons, hc, if_true, List.map_cons, List.mem_cons, ne_eq,
        not_false_eq_true, forall_eq_or_imp, true_implies, reduceCtorEq]
      refine ⟨⟨by omega, hA⟩, ?_, fun hp => ⟨hC1, by have := hmono1 hp; omega⟩, hC1⟩
      rcases hB with hB | hB
      · rcases hor1 with hor1 | ⟨hor1, -⟩
        · exact Or.inr (Or.inl (by omega))
        · exact Or.inl (by omega)
      · exact Or.inr (Or.inr hB)

/-- The maximum of `UpdateStats`, followed along a history, for any pair of a
statistic `f` and a call value `g` that `UpdateStats` updates by that rule. -/
theorem applyCalls_max (f : Site → Int) (g : Call → Int)
    (hstep : ∀ s c s1, UpdateStats s c.now c.duration c.size c.success = some s1 →
      f s1 = if c.success then (if g c > f s then g c else f s) else f s)
    (cs : List Call) :
    ∀ s s2, applyCalls s cs = some s2 →
      (∀ x ∈ (cs.filter (fun c => c.success)).map g, x ≤ f s2) ∧
      (f s2 = f s ∨ f s2 ∈ (cs.filter (fun c => c.success)).map g) ∧
      f s ≤ f s2 := by
  induction cs with
  | nil =>
    intro s s2 h
    simp only [applyCalls, Option.some.injEq] at h
    subst h
    simp
  | cons c cs ih =>
    intro s s2 h
    obtain ⟨s1, h1, h2⟩ := applyCalls_cons_some h
    have hf := hstep s c s1 h1
    obtain ⟨hA, hB, hC⟩ := ih s1 s2 h2
    cases hc : c.success with
    | false =>
      rw [hc] at hf
      simp only [Bool.false_eq_true, if_false] at hf
      rw [hf] at hB hC
      have hall := And.intro hA (And.intro hB hC)
      simpa [List.filter_cons, hc] using hall
    | true =>
      rw [hc] at hf
      simp only [if_true] at hf
      have hf1 : g c ≤ f s1 ∧ f s ≤ f s1 ∧ (f s1 = g c ∨ f s1 = f s) := by
        rw [hf]
        split_ifs with hcond
        · exact ⟨le_refl _, by omega, Or.inl rfl⟩
        · exact ⟨by omega, le_refl _, Or.inr rfl⟩
      obtain ⟨hle1, hmono1, hor1⟩ := hf1
      simp only [List.filter_cons, hc, if_true, List.map_cons, List.mem_cons,
        forall_eq_or_imp]
      refine ⟨⟨by omega, hA⟩, ?_, by omega⟩
      rcases hB with hB | hB
      · rcases hor1 with hor1 | hor1
        · exact Or.inr (Or.inl (by omega))
        · exact Or.inl (by omega)
      · exact Or.inr (Or.inr hB)

/-! ## Sequences of calls: the running average -/

/-- One step of the running average on non-negative values that fit in 64 bits:
`S` is the sum of the `k` values recorded so far. -/
theorem runningAvg_bounds (A k d S : Int) (hA : 0 ≤ A) (hk : 0 ≤ k) (hkb : k + 1 < 2 ^ 63)
    (hd : 0 ≤ d) (h1 : k * A ≤ S) (h2 : 2 * S ≤ 2 * (k * A) + k * (k - 1))
    (hS : S + d < 2 ^ 63) :
    ∃ q, runningAvg A (wrap64 (k + 1)) d = some q ∧ 0 ≤ q ∧ (k + 1) * q ≤ S + d ∧
      2 * (S + d) ≤ 2 * ((k + 1) * q) + (k + 1) * k := by
  have hk1 : wrap64 (k + 1) = k + 1 := wrap64_of_inInt64 (by unfold inInt64; omega)
  have hkk : wrap64 (k + 1 - 1) = k := by
    have : k + 1 - 1 = k := by ring
    rw [this]; exact wrap64_of_inInt64 (by unfold inInt64; omega)
  have hAk : 0 ≤ A * k := mul_nonneg hA hk
  have hAkS : A * k ≤ S := by rw [mul_comm]; exact h1
  have hw1 : wrap64 (A * k) = A * k := wrap64_of_inInt64 (by unfold inInt64; omega)
  have hw2 : wrap64 (A * k + d) = A * k + d := wrap64_of_inInt64 (by unfold inInt64; omega)
  have hkpos : (0 : Int) < k + 1 := by omega
  have hq0 : 0 ≤ (A * k + d) / (k + 1) := Int.ediv_nonneg (by omega) (by omega)
  have hqle : (A * k + d) / (k + 1) * (k + 1) ≤ A * k + d := Int.ediv_mul_le _ (by omega)
  have hqlt : A * k + d < ((A * k + d) / (k + 1) + 1) * (k + 1) :=
    Int.lt_ediv_add_one_mul_self _ hkpos
  have hqb : (A * k + d) / (k + 1) ≤ A * k + d := by
    have hmul : (A * k + d) / (k + 1) * 1 ≤ (A * k + d) / (k + 1) * (k + 1) :=
      Int.mul_le_mul_of_nonneg_left (by omega) hq0
    omega
  have hw3 : wrap64 ((A * k + d) / (k + 1)) = (A * k + d) / (k + 1) :=
    wrap64_of_inInt64 (by unfold inInt64; omega)
  refine ⟨(A * k + d) / (k + 1), ?_, hq0, ?_, ?_⟩
  · rw [hk1, runningAvg_eq (by omega), hkk, hw1, hw2,
      Int.tdiv_eq_ediv (by omega) (by omega), hw3]
  · nlinarith
  · nlinarith

/-- The running average of `UpdateStats`, followed along a history of successful
calls with non-negative values, for any pair of a statistic `f` and a call value
`g` that `UpdateStats` updates by that rule. `S` is the sum of the values recorded
before the history starts. -/
theorem applyCalls_avg (f : Site → Int) (g : Call → Int)
    (hstep : ∀ s c s1, UpdateStats s c.now c.duration c.size true = some s1 →
      runningAvg (f s) (wrap64 (s.SuccessCount + 1)) (g c) = some (f s1))
    (cs : List Call) :
    ∀ (s s2 : Site) (S : Int), (∀ c ∈ cs, c.success = true) → (∀ c ∈ cs, 0 ≤ g c) →
      0 ≤ f s → 0 ≤ s.SuccessCount → s.SuccessCount + cs.length < 2 ^ 63 →
      s.SuccessCount * f s ≤ S →
      2 * S ≤ 2 * (s.SuccessCount * f s) + s.SuccessCount * (s.SuccessCount - 1) →
      S + (cs.map g).sum < 2 ^ 63 →
      applyCalls s cs = some s2 →
      0 ≤ f s2 ∧ s2.SuccessCount = s.SuccessCount + cs.length ∧
      s2.SuccessCount * f s2 ≤ S + (cs.map g).sum ∧
      2 * (S + (cs.map g).sum) ≤
        2 * (s2.SuccessCount * f s2) + s2.SuccessCount * (s2.SuccessCount - 1) := by
  induction cs with
  | nil =>
    intro s s2 S _ _ h0 _ _ h1 h2 _ h
    simp only [applyCalls, Option.some.injEq] at h
    subst h
    simpa using ⟨h0, h1, h2⟩
  | cons c cs ih =>
    intro s s2 S hall hnn h0 hk hkb h1 h2 hS h
    obtain ⟨s1, hs1, hs2⟩ := applyCalls_cons_some h
    have hc : c.success = true := hall c (List.mem_cons_self _ _)
    rw [hc] at hs1
    simp only [List.length_cons, Nat.cast_add, Nat.cast_one] at hkb
    simp only [List.map_cons, List.sum_cons] at hS ⊢
    have hd : 0 ≤ g c := hnn c (List.mem_cons_self _ _)
    have hsum0 : 0 ≤ (cs.map g).sum :=
      List.sum_nonneg (by
        intro x hx
        obtain ⟨c1, hc1, rfl⟩ := List.mem_map.mp hx
        exact hnn c1 (List.mem_cons_of_mem _ hc1))
    obtain ⟨q, hq, hq0, hq1, hq2⟩ :=
      runningAvg_bounds (f s) s.SuccessCount (g c) S h0 hk (by omega) hd h1 h2 (by omega)
    have hfs1 : f s1 = q := by
      have := hstep s c s1 hs1
      rw [hq] at this
      exact (Option.some.inj this).symm
    have hsc1 : s1.SuccessCount = s.SuccessCount + 1 := by
      obtain ⟨s1', h1', -, -, -, -, -, -, -, hsc, -, -⟩ :=
        UpdateStats_success s c.now c.duration c.size (by
          rw [wrap64_of_inInt64 (by unfold inInt64; omega)]; omega)
      rw [hs1] at h1'
      cases h1'
      rw [hsc]
      exact wrap64_of_inInt64 (by unfold inInt64; omega)
    obtain ⟨r0, r1, r2, r3⟩ := ih s1 s2 (S + g c)
      (fun d hd => hall d (List.mem_cons_of_mem _ hd))
      (fun d hd => hnn d (List.mem_cons_of_mem _ hd))
      (by rw [hfs1]; exact hq0) (by omega) (by omega)
      (by rw [hfs1, hsc1]; exact hq1)
      (by rw [hfs1, hsc1]; have : s.SuccessCount + 1 - 1 = s.SuccessCount := by ring
          rw [this]; exact hq2)
      (by omega) hs2
    refine ⟨r0, ?_, ?_, ?_⟩
    · rw [r1, hsc1]; simp only [List.length_cons, Nat.cast_add, Nat.cast_one]; ring
    · have : S + (g c + (cs.map g).sum) = S + g c + (cs.map g).sum := by ring
      rw [this]; exact r2
    · have : S + (g c + (cs.map g).sum) = S + g c + (cs.map g).sum := by ring
      rw [this]; exact r3

theorem UpdateStats_some_avg {s : Site} {now duration size : Int} {s1 : Site}
    (h : UpdateStats s now duration size true = some s1) :
    runningAvg s.AvgDuration (wrap64 (s.SuccessCount + 1)) duration = some s1.AvgDuration ∧
    runningAvg s.AvgSize (wrap64 (s.SuccessCount + 1)) size = some s1.AvgSize := by
  by_cases hz : wrap64 (s.SuccessCount + 1) = 0
  · simp [UpdateStats, runningAvg, div64, hz] at h
  · obtain ⟨s2, h2, -, -, -, hd, -, -, hs, -, -, -⟩ := UpdateStats_success s now duration size hz
    rw [h2] at h
    cases h
    exact ⟨hd, hs⟩

theorem filter_success_of_all {cs : List Call} (hall : ∀ c ∈ cs, c.success = true) :
    cs.filter (fun c => c.success) = cs :=
  List.filter_eq_self.mpr hall

/-- The comparison of a running average `a` with the mean of `xs`, from the two
bounds that the running average keeps. -/
theorem mean_of_bounds (xs : List Int) (a : Int) (hne : xs ≠ []) (hsum : 0 ≤ xs.sum)
    (h1 : (xs.length : Int) * a ≤ xs.sum)
    (h2 : 2 * xs.sum ≤ 2 * ((xs.length : Int) * a) + (xs.length : Int) * ((xs.length : Int) - 1)) :
    a ≤ meanOfHistory xs ∧ (xs.length ≤ 2 → a = meanOfHistory xs) := by
  have hlen : 0 < xs.length := List.length_pos.mpr hne
  have hn : (0 : Int) < (xs.length : Int) := by exact_mod_cast hlen
  unfold meanOfHistory
  rw [Int.tdiv_eq_ediv hsum (le_of_lt hn)]
  refine ⟨Int.le_ediv_of_mul_le hn (by rw [mul_comm]; exact h1), fun h => ?_⟩
  have hcases : xs.length = 1 ∨ xs.length = 2 := by omega
  rcases hcases with h | h
  · rw [h] at h1 h2 ⊢
    simp only [Nat.cast_one] at h1 h2 ⊢
    omega
  · rw [h] at h1 h2 ⊢
    simp only [Nat.cast_ofNat] at h1 h2 ⊢
    omega

/-! ## The claims -/

/-- C1: a failed `UpdateStats` on any state whose `TotalCount` is a 64-bit
integer below the largest one leaves the six duration and size statistics and
`SuccessCount` unchanged and increases `TotalCount` by exactly one. -/
theorem UpdateStats_failure_frame (s : Site) (now duration size : Int)
    (hty : inInt64 s.TotalCount) (hmax : s.TotalCount ≠ 2 ^ 63 - 1) :
    ∃ s1, UpdateStats s now duration size false = some s1 ∧
      s1.MinDuration = s.MinDuration ∧ s1.AvgDuration = s.AvgDuration ∧
      s1.MaxDuration = s.MaxDuration ∧ s1.MinSize = s.MinSize ∧
      s1.AvgSize = s.AvgSize ∧ s1.MaxSize = s.MaxSize ∧
      s1.SuccessCount = s.SuccessCount ∧ s1.TotalCount = s.TotalCount + 1 := by
  refine ⟨_, rfl, rfl, rfl, rfl, rfl, rfl, rfl, rfl, ?_⟩
  apply wrap64_of_inInt64
  unfold inInt64 at *
  omega

/-- Witness of C1: the failed third call of the test scenario, on the state
reached after the two successful ones. -/
theorem UpdateStats_failure_frame_witness :
    ∃ s1, UpdateStats
        { URL := "https://example.com"
          MinDuration := 100000000, AvgDuration := 150000000, MaxDuration := 200000000
          MinSize := 500, AvgSize := 750, MaxSize := 1000
          SuccessCount := 2, TotalCount := 2, lastRequest := 0 }
        7 50000000 0 false = some s1 ∧
      s1.MinDuration = 100000000 ∧ s1.AvgDuration = 150000000 ∧
      s1.MaxDuration = 200000000 ∧ s1.MinSize = 500 ∧
      s1.AvgSize = 750 ∧ s1.MaxSize = 1000 ∧
      s1.SuccessCount = 2 ∧ s1.TotalCount = 2 + 1 :=
  UpdateStats_failure_frame
    { URL := "https://example.com"
      MinDuration := 100000000, AvgDuration := 150000000, MaxDuration := 200000000
      MinSize := 500, AvgSize := 750, MaxSize := 1000
      SuccessCount := 2, TotalCount := 2, lastRequest := 0 }
    7 50000000 0 (by decide) (by decide)

/-- C2, as stated, fails: after the successful durations 1, 2, 3 (and sizes 1, 2, 3)
the incremental average is 1 while the mean of the history is 2. -/
theorem avg_mean_counterexample :
    applyCalls (NewSite "https://example.com" 0)
        [⟨0, 1, 1, true⟩, ⟨0, 2, 2, true⟩, ⟨0, 3, 3, true⟩] =
      some { URL := "https://example.com"
             MinDuration := 1, AvgDuration := 1, MaxDuration := 3
             MinSize := 1, AvgSize := 1, MaxSize := 3
             SuccessCount := 3, TotalCount := 3, lastRequest := 0 } ∧
    meanOfHistory (successDurations [⟨0, 1, 1, true⟩, ⟨0, 2, 2, true⟩, ⟨0, 3, 3, true⟩]) = 2 ∧
    meanOfHistory (successSizes [⟨0, 1, 1, true⟩, ⟨0, 2, 2, true⟩, ⟨0, 3, 3, true⟩]) = 2 := by
  decide

/-- C2, amended: for every non-empty sequence of successful `UpdateStats` calls
with non-negative durations and sizes whose sums fit in 64 bits, applied to a
freshly constructed `Site`, the incremental `AvgDuration` and `AvgSize` never
exceed the mean recomputed from the full history, stay within `n(n-1)/2` of the
sum when multiplied by the count `n`, and equal the recomputed mean when `n ≤ 2`. -/
theorem avg_incremental_vs_mean (cs : List Call) (url : String) (t0 : Int)
    (hne : cs ≠ []) (hall : ∀ c ∈ cs, c.success = true)
    (hnn : ∀ c ∈ cs, 0 ≤ c.duration ∧ 0 ≤ c.size) (hlen : (cs.length : Int) < 2 ^ 63)
    (hsumd : (successDurations cs).sum < 2 ^ 63) (hsums : (successSizes cs).sum < 2 ^ 63) :
    ∃ s, applyCalls (NewSite url t0) cs = some s ∧
      s.AvgDuration ≤ meanOfHistory (successDurations cs) ∧
      2 * (successDurations cs).sum ≤
        2 * ((cs.length : Int) * s.AvgDuration) + (cs.length : Int) * ((cs.length : Int) - 1) ∧
      (cs.length ≤ 2 → s.AvgDuration = meanOfHistory (successDurations cs)) ∧
      s.AvgSize ≤ meanOfHistory (successSizes cs) ∧
      2 * (successSizes cs).sum ≤
        2 * ((cs.length : Int) * s.AvgSize) + (cs.length : Int) * ((cs.length : Int) - 1) ∧
      (cs.length ≤ 2 → s.AvgSize = meanOfHistory (successSizes cs)) := by
  obtain ⟨s, hs, -, -, -⟩ := applyCalls_counts cs (NewSite url t0) (le_refl _) (le_refl _)
    (by simpa [NewSite] using hlen)
  have hd : successDurations cs = cs.map (fun c => c.duration) := by
    unfold successDurations; rw [filter_success_of_all hall]
  have hz : successSizes cs = cs.map (fun c => c.size) := by
    unfold successSizes; rw [filter_success_of_all hall]
  rw [hd] at hsumd ⊢
  rw [hz] at hsums ⊢
  have hsumd0 : 0 ≤ (cs.map (fun c => c.duration)).sum :=
    List.sum_nonneg (by
      intro x hx
      obtain ⟨c, hc, rfl⟩ := List.mem_map.mp hx
      exact (hnn c hc).1)
  have hsums0 : 0 ≤ (cs.map (fun c => c.size)).sum :=
    List.sum_nonneg (by
      intro x hx
      obtain ⟨c, hc, rfl⟩ := List.mem_map.mp hx
      exact (hnn c hc).2)
  obtain ⟨-, dk, d1, d2⟩ := applyCalls_avg (fun s => s.AvgDuration) (fun c => c.duration)
    (fun s c s1 h => (UpdateStats_some_avg h).1) cs (NewSite url t0) s 0 hall
    (fun c hc => (hnn c hc).1) (le_refl _) (le_refl _) (by simpa [NewSite] using hlen)
    (by simp [NewSite]) (by simp [NewSite]) (by simpa using hsumd) hs
  obtain ⟨-, -, z1, z2⟩ := applyCalls_avg (fun s => s.AvgSize) (fun c => c.size)
    (fun s c s1 h => (UpdateStats_some_avg h).2) cs (NewSite url t0) s 0 hall
    (fun c hc => (hnn c hc).2) (le_refl _) (le_refl _) (by simpa [NewSite] using hlen)
    (by simp [NewSite]) (by simp [NewSite]) (by simpa using hsums) hs
  have hk : s.SuccessCount = (cs.length : Int) := by rw [dk]; simp [NewSite]
  simp only [hk, zero_add] at d1 d2 z1 z2
  have hned : cs.map (fun c => c.duration) ≠ [] := by simpa using hne
  have hnes : cs.map (fun c => c.size) ≠ [] := by simpa using hne
  have md := mean_of_bounds (cs.map (fun c => c.duration)) s.AvgDuration hned hsumd0
    (by simpa using d1) (by simpa using d2)
  have ms := mean_of_bounds (cs.map (fun c => c.size)) s.AvgSize hnes hsums0
    (by simpa using z1) (by simpa using z2)
  simp only [List.length_map] at md ms
  exact ⟨s, hs, md.1, d2, md.2, ms.1, z2, ms.2⟩

/-- Witness of C2 (amended): the two successful calls of the test scenario. -/
theorem avg_incremental_vs_mean_witness :
    ∃ s, applyCalls (NewSite "https://example.com" 0) scenarioSuccesses = some s ∧
      s.AvgDuration ≤ meanOfHistory (successDurations scenarioSuccesses) ∧
      2 * (successDurations scenarioSuccesses).sum ≤
        2 * ((scenarioSuccesses.length : Int) * s.AvgDuration) +
          (scenarioSuccesses.length : Int) * ((scenarioSuccesses.length : Int) - 1) ∧
      (scenarioSuccesses.length ≤ 2 →
        s.AvgDuration = meanOfHistory (successDurations scenarioSuccesses)) ∧
      s.AvgSize ≤ meanOfHistory (successSizes scenarioSuccesses) ∧
      2 * (successSizes scenarioSuccesses).sum ≤
        2 * ((scenarioSuccesses.length : Int) * s.AvgSize) +
          (scenarioSuccesses.length : Int) * ((scenarioSuccesses.length : Int) - 1) ∧
      (scenarioSuccesses.length ≤ 2 →
        s.AvgSize = meanOfHistory (successSizes scenarioSuccesses)) :=
  avg_incremental_vs_mean scenarioSuccesses "https://example.com" 0
    (by decide) (by decide) (by decide) (by decide) (by decide) (by decide)

/-- C3: for every sequence of `n` calls (with `n` in the range of the counters)
applied to a freshly constructed `Site`, of which `k` are successful, the run
returns a state with `TotalCount = n` and `SuccessCount = k`; so
`SuccessCount ≤ TotalCount`, with equality when every call is successful. -/
theorem counters_count_calls (cs : List Call) (url : String) (t0 : Int)
    (hlen : (cs.length : Int) < 2 ^ 63) :
    ∃ s, applyCalls (NewSite url t0) cs = some s ∧
      s.TotalCount = (cs.length : Int) ∧ s.SuccessCount = (successes cs : Int) ∧
      s.SuccessCount ≤ s.TotalCount ∧
      ((∀ c ∈ cs, c.success = true) → s.SuccessCount = s.TotalCount) := by
  obtain ⟨s, hs, ht, hk, -⟩ := applyCalls_counts cs (NewSite url t0) (le_refl _) (le_refl _)
    (by simpa [NewSite] using hlen)
  have ht1 : s.TotalCount = (cs.length : Int) := by rw [ht]; simp [NewSite]
  have hk1 : s.SuccessCount = (successes cs : Int) := by rw [hk]; simp [NewSite]
  refine ⟨s, hs, ht1, hk1, ?_, fun hall => ?_⟩
  · rw [ht1, hk1]
    unfold successes
    exact_mod_cast List.length_filter_le _ _
  · rw [ht1, hk1]
    unfold successes
    rw [filter_success_of_all hall]

/-- Witness of C3: the three calls of the test scenario give `2/3`. -/
theorem counters_count_calls_witness :
    ∃ s, applyCalls (NewSite "https://example.com" 0) scenarioCalls = some s ∧
      s.TotalCount = (scenarioCalls.length : Int) ∧
      s.SuccessCount = (successes scenarioCalls : Int) ∧
      s.SuccessCount ≤ s.TotalCount ∧
      ((∀ c ∈ scenarioCalls, c.success = true) → s.SuccessCount = s.TotalCount) :=
  counters_count_calls scenarioCalls "https://example.com" 0 (by decide)

/-- C4, as stated, fails: two successful calls with the non-negative sizes 0 and 5
(and durations 0 and 7) leave `MinSize = 5` and `MinDuration = 7`, although the
smallest successful size and duration are 0. -/
theorem min_zero_counterexample :
    applyCalls (NewSite "https://example.com" 0) [⟨1, 0, 0, true⟩, ⟨2, 7, 5, true⟩] =
      some { URL := "https://example.com"
             MinDuration := 7, AvgDuration := 3, MaxDuration := 7
             MinSize := 5, AvgSize := 2, MaxSize := 5
             SuccessCount := 2, TotalCount := 2, lastRequest := 2 } ∧
    ¬ isSmallestOf 7 (successDurations [⟨1, 0, 0, true⟩, ⟨2, 7, 5, true⟩]) ∧
    ¬ isSmallestOf 5 (successSizes [⟨1, 0, 0, true⟩, ⟨2, 7, 5, true⟩]) ∧
    isSmallestOf 0 (successDurations [⟨1, 0, 0, true⟩, ⟨2, 7, 5, true⟩]) ∧
    isSmallestOf 0 (successSizes [⟨1, 0, 0, true⟩, ⟨2, 7, 5, true⟩]) := by
  decide

/-- C4, amended: for every sequence of `UpdateStats` calls (of a length in the
range of the counters) whose successful calls have strictly positive durations
and sizes, applied to a freshly constructed `Site` and containing at least one
successful call, `MinDuration` is the smallest duration and `MinSize` the
smallest size among the successful calls. -/
theorem min_of_positive_successes (cs : List Call) (url : String) (t0 : Int)
    (hlen : (cs.length : Int) < 2 ^ 63)
    (hpos : ∀ c ∈ cs, c.success = true → 0 < c.duration ∧ 0 < c.size)
    (hsome : ∃ c ∈ cs, c.success = true) :
    ∃ s, applyCalls (NewSite url t0) cs = some s ∧
      isSmallestOf s.MinDuration (successDurations cs) ∧
      isSmallestOf s.MinSize (successSizes cs) := by
  obtain ⟨s, hs, -, -, -⟩ := applyCalls_counts cs (NewSite url t0) (le_refl _) (le_refl _)
    (by simpa [NewSite] using hlen)
  obtain ⟨c0, hc0, hc0s⟩ := hsome
  have hfilter : c0 ∈ cs.filter (fun c => c.success) := List.mem_filter.mpr ⟨hc0, hc0s⟩
  obtain ⟨dA, dB, -, dD⟩ := applyCalls_min (fun s => s.MinDuration) (fun c => c.duration)
    (fun s c s1 h => (UpdateStats_some h).2.1) cs (NewSite url t0) s (le_refl _)
    (fun c hc hcs => (hpos c hc hcs).1) hs
  obtain ⟨zA, zB, -, zD⟩ := applyCalls_min (fun s => s.MinSize) (fun c => c.size)
    (fun s c s1 h => (UpdateStats_some h).2.2.2.1) cs (NewSite url t0) s (le_refl _)
    (fun c hc hcs => (hpos c hc hcs).2) hs
  have dne : (cs.filter (fun c => c.success)).map (fun c => c.duration) ≠ [] :=
    List.ne_nil_of_mem (List.mem_map_of_mem _ hfilter)
  have zne : (cs.filter (fun c => c.success)).map (fun c => c.size) ≠ [] :=
    List.ne_nil_of_mem (List.mem_map_of_mem _ hfilter)
  have dpos := dD dne
  have zpos := zD zne
  refine ⟨s, hs, ⟨?_, dA⟩, ⟨?_, zA⟩⟩
  · rcases dB with h | h
    · simp only [NewSite] at h; omega
    · exact h
  · rcases zB with h | h
    · simp only [NewSite] at h; omega
    · exact h

/-- Witness of C4 (amended): the three calls of the test scenario. -/
theorem min_of_positive_successes_witness :
    ∃ s, applyCalls (NewSite "https://example.com" 0) scenarioCalls = some s ∧
      isSmallestOf s.MinDuration (successDurations scenarioCalls) ∧
      isSmallestOf s.MinSize (successSizes scenarioCalls) :=
  min_of_positive_successes scenarioCalls "https://example.com" 0
    (by decide) (by decide) (by decide)

/-- C5: for every sequence of `UpdateStats` calls (of a length in the range of the
counters) with non-negative durations and sizes, applied to a freshly constructed
`Site` and containing at least one successful call, `MaxDuration` is the largest
duration and `MaxSize` the largest size among the successful calls. -/
theorem max_of_successes (cs : List Call) (url : String) (t0 : Int)
    (hlen : (cs.length : Int) < 2 ^ 63)
    (hnn : ∀ c ∈ cs, 0 ≤ c.duration ∧ 0 ≤ c.size)
    (hsome : ∃ c ∈ cs, c.success = true) :
    ∃ s, applyCalls (NewSite url t0) cs = some s ∧
      isLargestOf s.MaxDuration (successDurations cs) ∧
      isLargestOf s.MaxSize (successSizes cs) := by
  obtain ⟨s, hs, -, -, -⟩ := applyCalls_counts cs (NewSite url t0) (le_refl _) (le_refl _)
    (by simpa [NewSite] using hlen)
  obtain ⟨c0, hc0, hc0s⟩ := hsome
  have hfilter : c0 ∈ cs.filter (fun c => c.success) := List.mem_filter.mpr ⟨hc0, hc0s⟩
  obtain ⟨dA, dB, -⟩ := applyCalls_max (fun s => s.MaxDuration) (fun c => c.duration)
    (fun s c s1 h => (UpdateStats_some h).2.2.1) cs (NewSite url t0) s hs
  obtain ⟨zA, zB, -⟩ := applyCalls_max (fun s => s.MaxSize) (fun c => c.size)
    (fun s c s1 h => (UpdateStats_some h).2.2.2.2.1) cs (NewSite url t0) s hs
  have dmem : c0.duration ∈ (cs.filter (fun c => c.success)).map (fun c => c.duration) :=
    List.mem_map_of_mem _ hfilter
  have zmem : c0.size ∈ (cs.filter (fun c => c.success)).map (fun c => c.size) :=
    List.mem_map_of_mem _ hfilter
  refine ⟨s, hs, ⟨?_, dA⟩, ⟨?_, zA⟩⟩
  · rcases dB with h | h
    · have h1 := dA _ dmem
      have h2 := (hnn c0 hc0).1
      simp only [NewSite] at h
      have : s.MaxDuration = c0.duration := by omega
      rw [this]; exact dmem
    · exact h
  · rcases zB with h | h
    · have h1 := zA _ zmem
      have h2 := (hnn c0 hc0).2
      simp only [NewSite] at h
      have : s.MaxSize = c0.size := by omega
      rw [this]; exact zmem
    · exact h

/-- Witness of C5: the three calls of the test scenario. -/
theorem max_of_successes_witness :
    ∃ s, applyCalls (NewSite "https://example.com" 0) scenarioCalls = some s ∧
      isLargestOf s.MaxDuration (successDurations scenarioCalls) ∧
      isLargestOf s.MaxSize (successSizes scenarioCalls) :=
  max_of_successes scenarioCalls "https://example.com" 0
    (by decide) (by decide) (by decide)

theorem timeSince_ge_iff (now t : Int) :
    timeSince now t ≥ 5 * second ↔ now - t ≥ 5 * second := by
  unfold timeSince timeSub maxDuration minDuration second
  split_ifs <;> omega

/-- C6: with the clock as an explicit input, `IsReadyForRequest` is a function of
the state that returns `true` exactly when `now - lastRequest ≥ 5s`; it is `true`
on a `Site` built by `NewSite` (at any clock reading from the construction on);
every `UpdateStats` call that returns, successful or failed, stores the clock
reading in `lastRequest`, after which `IsReadyForRequest` is `false` at that
reading and at every reading less than 5 seconds later, and `true` at every
reading at least 5 seconds later. A failed call always returns, a successful one
whenever the incremented success counter is not zero. -/
theorem IsReadyForRequest_spec (s : Site) (now : Int) :
    (IsReadyForRequest s now = true ↔ now - s.lastRequest ≥ 5 * second) ∧
    (∀ url t0, t0 ≤ now → IsReadyForRequest (NewSite url t0) now = true) ∧
    (∀ duration size success,
      (success = false ∨ wrap64 (s.SuccessCount + 1) ≠ 0) →
      ∃ s1, UpdateStats s now duration size success = some s1 ∧
        s1.lastRequest = now ∧
        IsReadyForRequest s1 now = false ∧
        (∀ later, later - now < 5 * second → IsReadyForRequest s1 later = false) ∧
        (∀ later, later - now ≥ 5 * second → IsReadyForRequest s1 later = true)) := by
  have key : ∀ (s : Site) (t : Int),
      (IsReadyForRequest s t = true ↔ t - s.lastRequest ≥ 5 * second) := by
    intro s t
    unfold IsReadyForRequest
    rw [decide_eq_true_iff]
    exact timeSince_ge_iff t s.lastRequest
  refine ⟨key s now, ?_, ?_⟩
  · intro url t0 h
    rw [key]
    simp only [NewSite, second]
    omega
  · intro duration size success hret
    have hex : ∃ s1, UpdateStats s now duration size success = some s1 := by
      cases success with
      | false => exact ⟨_, UpdateStats_failure s now duration size⟩
      | true =>
        rcases hret with h | h
        · cases h
        · obtain ⟨s1, h1, -⟩ := UpdateStats_success s now duration size h
          exact ⟨s1, h1⟩
    obtain ⟨s1, h1⟩ := hex
    have hl : s1.lastRequest = now := (UpdateStats_some h1).2.2.2.2.2
    refine ⟨s1, h1, hl, ?_, ?_, ?_⟩
    · rw [Bool.eq_false_iff, ne_eq, key, hl]
      simp only [second]
      omega
    · intro later h
      rw [Bool.eq_false_iff, ne_eq, key, hl]
      omega
    · intro later h
      rw [key, hl]
      exact h

/-- Witness of C6: the steps of `TestSite_IsReadyForRequest`, the construction at
clock reading 0, the update at 1 second and the last check 6 seconds after it. -/
theorem IsReadyForRequest_spec_witness :
    IsReadyForRequest (NewSite "https://example.com" 0) 0 = true ∧
    (∃ s1, UpdateStats (NewSite "https://example.com" 0) second (100 * millisecond) 1000 true
        = some s1 ∧
      IsReadyForRequest s1 second = false ∧
      IsReadyForRequest s1 (7 * second) = true) := by
  refine ⟨(IsReadyForRequest_spec (NewSite "https://example.com" 0) 0).2.1 _ 0 (le_refl _), ?_⟩
  obtain ⟨s1, h1, -, h2, -, h3⟩ :=
    (IsReadyForRequest_spec (NewSite "https://example.com" 0) second).2.2
      (100 * millisecond) 1000 true (Or.inr (by decide))
  exact ⟨s1, h1, h2, h3 (7 * second) (by decide)⟩

theorem append_ne_na_of_length (a b : String) (h : 3 < b.length) : a ++ b ≠ "n/a" := by
  intro heq
  have hlen := congrArg String.length heq
  rw [String.length_append] at hlen
  have h3 : "n/a".length = 3 := by decide
  omega

theorem append_B_ne_na (a : String) : a ++ " B" ≠ "n/a" := by
  intro heq
  have hdata := congrArg String.data heq
  rw [String.data_append] at hdata
  have hrev := congrArg List.reverse hdata
  have h1 : " B".data = [' ', 'B'] := by decide
  have h2 : "n/a".data = ['n', '/', 'a'] := by decide
  rw [h1, h2, List.reverse_append] at hrev
  simp at hrev

/-- C7: `GetStats` returns exactly 8 fields: the URL, the formatted minimum,
average and maximum duration, the formatted minimum, average and maximum size,
and `SuccessCount/TotalCount`. A duration is rendered `n/a` iff it is zero and
otherwise as its whole milliseconds followed by `.00 ms` (`100ms` gives
`100.00 ms`); a size is rendered `n/a` iff it is `≤ 0` and otherwise as the size
followed by ` B`. On a `Site` built by `NewSite` the six numeric fields are `n/a`
and the counter field is `0/0`. -/
theorem GetStats_spec (s : Site) :
    (GetStats s).length = 8 ∧
    GetStats s =
      [ s.URL,
        formatDuration s.MinDuration, formatDuration s.AvgDuration,
        formatDuration s.MaxDuration,
        formatSize s.MinSize, formatSize s.AvgSize, formatSize s.MaxSize,
        toString s.SuccessCount ++ "/" ++ toString s.TotalCount ] ∧
    (∀ d : Int, formatDuration d = "n/a" ↔ d = 0) ∧
    (∀ d : Int, d ≠ 0 → formatDuration d = toString (Int.tdiv d millisecond) ++ ".00 ms") ∧
    formatDuration (100 * millisecond) = "100.00 ms" ∧
    (∀ b : Int, formatSize b = "n/a" ↔ b ≤ 0) ∧
    (∀ b : Int, 0 < b → formatSize b = toString b ++ " B") ∧
    (∀ url now, GetStats (NewSite url now) =
      [url, "n/a", "n/a", "n/a", "n/a", "n/a", "n/a", "0/0"]) := by
  refine ⟨rfl, rfl, ?_, ?_, by decide, ?_, ?_, ?_⟩
  · intro d
    unfold formatDuration
    constructor
    · intro h
      by_contra hd
      rw [if_neg hd] at h
      exact append_ne_na_of_length _ _ (by decide) h
    · intro h
      rw [if_pos h]
  · intro d hd
    unfold formatDuration millisecond
    rw [if_neg hd]
  · intro b
    unfold formatSize
    constructor
    · intro h
      by_contra hb
      rw [if_neg hb] at h
      exact append_B_ne_na _ h
    · intro h
      rw [if_pos h]
  · intro b hb
    unfold formatSize
    rw [if_neg (by omega)]
  · intro url now
    rfl

/-! ## The monitor -/

theorem mapGet_mapSet_self (m : List (String × Site)) (k : String) (v : Site) :
    mapGet (mapSet m k v) k = some v := by
  induction m with
  | nil => simp [mapSet, mapGet]
  | cons e rest ih =>
    obtain ⟨k1, w⟩ := e
    by_cases h : k1 = k
    · simp [mapSet, mapGet, h]
    · simp [mapSet, mapGet, h, ih]

theorem mapGet_mapSet_ne (m : List (String × Site)) (k k2 : String) (v : Site) (hne : k2 ≠ k) :
    mapGet (mapSet m k v) k2 = mapGet m k2 := by
  induction m with
  | nil => simp [mapSet, mapGet, Ne.symm hne]
  | cons e rest ih =>
    obtain ⟨k1, w⟩ := e
    by_cases h : k1 = k
    · subst h
      simp [mapSet, mapGet, Ne.symm hne]
    · by_cases h2 : k1 = k2
      · subst h2
        simp [mapSet, mapGet, h]
      · simp [mapSet, mapGet, h, h2, ih]

/-- The loop of `New` keeps every entry a freshly built site filed under its own
URL, and files one under each URL it visits. -/
theorem newSites_spec (clock : Nat → Int) (urls : List String) :
    ∀ (i : Nat) (acc : List (String × Site)),
      (∀ k v, mapGet acc k = some v → ∃ j, v = NewSite k (clock j)) →
      (∀ k v, mapGet (newSites clock urls i acc) k = some v → ∃ j, v = NewSite k (clock j)) ∧
      (∀ u, (u ∈ urls ∨ (mapGet acc u).isSome = true) →
        (mapGet (newSites clock urls i acc) u).isSome = true) := by
  induction urls with
  | nil =>
    intro i acc hacc
    refine ⟨hacc, fun u hu => ?_⟩
    rcases hu with hu | hu
    · cases hu
    · exact hu
  | cons url rest ih =>
    intro i acc hacc
    have hacc2 : ∀ k v, mapGet (mapSet acc url (NewSite url (clock i))) k = some v →
        ∃ j, v = NewSite k (clock j) := by
      intro k v hkv
      by_cases hk : k = url
      · subst hk
        rw [mapGet_mapSet_self] at hkv
        exact ⟨i, (Option.some.inj hkv).symm⟩
      · rw [mapGet_mapSet_ne _ _ _ _ hk] at hkv
        exact hacc k v hkv
    obtain ⟨h1, h2⟩ := ih (i + 1) (mapSet acc url (NewSite url (clock i))) hacc2
    refine ⟨h1, fun u hu => ?_⟩
    apply h2
    by_cases hk : u = url
    · subst hk
      right
      rw [mapGet_mapSet_self]
      rfl
    · rcases hu with hu | hu
      · left
        rcases List.mem_cons.mp hu with hu | hu
        · exact absurd hu hk
        · exact hu
      · right
        rw [mapGet_mapSet_ne _ _ _ _ hk]
        exact hu

/-- The loop of `ToSummaries` over URLs that all have a site in the map. -/
theorem summariesOf_spec (sites : List (String × Site)) (us : List String) :
    (∀ u ∈ us, (mapGet sites u).isSome = true) →
    ∃ rows, summariesOf sites us = some rows ∧ rows.length = us.length ∧
      ∀ (i : Nat) (u : String), us[i]? = some u →
        ∃ s, mapGet sites u = some s ∧ rows[i]? = some (GetStats s) := by
  induction us with
  | nil =>
    intro _
    exact ⟨[], rfl, rfl, by simp⟩
  | cons url rest ih =>
    intro h
    obtain ⟨rows, hr, hl, hi⟩ := ih (fun u hu => h u (List.mem_cons_of_mem _ hu))
    obtain ⟨s, hs⟩ := Option.isSome_iff_exists.mp (h url (List.mem_cons_self _ _))
    refine ⟨GetStats s :: rows, ?_, by simp [hl], ?_⟩
    · simp only [summariesOf, hs, hr]
    · intro i u hu
      cases i with
      | zero =>
        simp only [List.getElem?_cons_zero, Option.some.injEq] at hu
        subst hu
        exact ⟨s, hs, by simp⟩
      | succ n =>
        simp only [List.getElem?_cons_succ] at hu ⊢
        exact hi n u hu

theorem updateSite_some {m : Monitor} {url : String} {c : Call} {m2 : Monitor}
    (h : updateSite m url c = some m2) :
    ∃ s s1, mapGet m.sites url = some s ∧
      UpdateStats s c.now c.duration c.size c.success = some s1 ∧
      m2 = { m with sites := mapSet m.sites url s1 } := by
  unfold updateSite at h
  split at h
  · cases h
  · rename_i s hs
    split at h
    · cases h
    · rename_i s1 hu
      exact ⟨s, s1, hs, hu, (Option.some.inj h).symm⟩

/-- Updates by the workers keep the list of URLs, keep every site filed under its
own URL, and keep every key of the map. -/
theorem applyUpdates_spec (ups : List (String × Call)) :
    ∀ m m1 : Monitor, applyUpdates m ups = some m1 →
      (∀ k v, mapGet m.sites k = some v → v.URL = k) →
      m1.urls = m.urls ∧
      (∀ k v, mapGet m1.sites k = some v → v.URL = k) ∧
      (∀ u, (mapGet m.sites u).isSome = true → (mapGet m1.sites u).isSome = true) := by
  induction ups with
  | nil =>
    intro m m1 h hinv
    simp only [applyUpdates, Option.some.injEq] at h
    subst h
    exact ⟨rfl, hinv, fun u hu => hu⟩
  | cons e rest ih =>
    intro m m1 h hinv
    obtain ⟨url, c⟩ := e
    simp only [applyUpdates] at h
    cases hm : updateSite m url c with
    | none => rw [hm] at h; cases h
    | some m2 =>
      rw [hm] at h
      obtain ⟨s, s1, hs, hu, rfl⟩ := updateSite_some hm
      have hurl : s1.URL = url := by
        rw [(UpdateStats_some hu).1]
        exact hinv url s hs
      obtain ⟨h1, h2, h3⟩ := ih _ m1 h (by
        intro k v hkv
        by_cases hk : k = url
        · subst hk
          rw [mapGet_mapSet_self] at hkv
          cases hkv
          exact hurl
        · rw [mapGet_mapSet_ne _ _ _ _ hk] at hkv
          exact hinv k v hkv)
      refine ⟨h1, h2, fun u hu2 => h3 u ?_⟩
      by_cases hk : u = url
      · subst hk
        rw [mapGet_mapSet_self]
        rfl
      · rw [mapGet_mapSet_ne _ _ _ _ hk]
        exact hu2

/-- C8: for every list of URLs given to `New` (empty or with repetitions), on the
new monitor and after any sequence of updates by its workers, `ToSummaries`
returns one row per list entry in registration order: the result has the length
of the list, and row `i` is the `GetStats` of the site filed under `urls[i]`,
whose first field is `urls[i]`. -/
theorem ToSummaries_New (urls : List String) (clock : Nat → Int)
    (ups : List (String × Call)) (m : Monitor)
    (hm : applyUpdates (New urls clock) ups = some m) :
    ∃ rows, ToSummaries m = some rows ∧ rows.length = urls.length ∧
      ∀ (i : Nat) (u : String), urls[i]? = some u →
        ∃ s, mapGet m.sites u = some s ∧
          rows[i]? = some (GetStats s) ∧ (GetStats s).head? = some u := by
  obtain ⟨hfresh, hkeys⟩ := newSites_spec clock urls 0 [] (by
    intro k v h
    simp [mapGet] at h)
  have hinv : ∀ k v, mapGet (New urls clock).sites k = some v → v.URL = k := by
    intro k v hkv
    obtain ⟨j, hj⟩ := hfresh k v hkv
    rw [hj]
    rfl
  obtain ⟨hurls, hinv1, hkeep⟩ := applyUpdates_spec ups (New urls clock) m hm hinv
  have hurls1 : m.urls = urls := hurls
  obtain ⟨rows, hr, hl, hi⟩ := summariesOf_spec m.sites urls
    (fun u hu => hkeep u (hkeys u (Or.inl hu)))
  refine ⟨rows, ?_, hl, fun i u hu => ?_⟩
  · unfold ToSummaries
    rw [hurls1]
    exact hr
  · obtain ⟨s, hs, hrow⟩ := hi i u hu
    refine ⟨s, hs, hrow, ?_⟩
    have := hinv1 u s hs
    simp only [GetStats, List.head?_cons, this]

/-- Witness of C8: the monitor of `TestIntegration` with one URL registered twice,
after a successful and a failed update: three rows, the first and the last for
the same site. -/
theorem ToSummaries_New_witness :
    ∃ m rows,
      applyUpdates (New ["https://example.com", "https://slow.com", "https://example.com"]
          (fun i => i))
        [("https://example.com", ⟨1, 100 * millisecond, 1000, true⟩),
         ("https://slow.com", ⟨2, 50 * millisecond, -1, false⟩)] = some m ∧
      ToSummaries m = some rows ∧ rows.length = 3 ∧
      rows[0]? = some ["https://example.com", "100.00 ms", "100.00 ms", "100.00 ms",
        "1000 B", "1000 B", "1000 B", "1/1"] ∧
      rows[1]? = some ["https://slow.com", "n/a", "n/a", "n/a", "n/a", "n/a", "n/a", "0/1"] ∧
      rows[2]? = rows[0]? := by
  cases hm : applyUpdates (New ["https://example.com", "https://slow.com",
      "https://example.com"] (fun i => i))
      [("https://example.com", ⟨1, 100 * millisecond, 1000, true⟩),
       ("https://slow.com", ⟨2, 50 * millisecond, -1, false⟩)] with
  | none => exact absurd hm (by decide)
  | some m =>
    obtain ⟨rows, hr, hl, -⟩ := ToSummaries_New _ _ _ m hm
    have hrows : (applyUpdates (New ["https://example.com", "https://slow.com",
        "https://example.com"] (fun i => i))
        [("https://example.com", ⟨1, 100 * millisecond, 1000, true⟩),
         ("https://slow.com", ⟨2, 50 * millisecond, -1, false⟩)]).bind ToSummaries =
        some [["https://example.com", "100.00 ms", "100.00 ms", "100.00 ms",
            "1000 B", "1000 B", "1000 B", "1/1"],
          ["https://slow.com", "n/a", "n/a", "n/a", "n/a", "n/a", "n/a", "0/1"],
          ["https://example.com", "100.00 ms", "100.00 ms", "100.00 ms",
            "1000 B", "1000 B", "1000 B", "1/1"]] := by
      decide
    rw [hm, Option.some_bind, hr] at hrows
    cases hrows
    exact ⟨m, _, rfl, hr, rfl, rfl, rfl, rfl⟩

/-- A run of polls is the run of the `UpdateStats` calls that the worker makes for
them. -/
theorem applyPolls_eq_applyCalls (ps : List Poll) :
    ∀ s : Site, applyPolls s ps = applyCalls s (ps.map pollCall) := by
  induction ps with
  | nil => intro s; rfl
  | cons p ps ih =>
    intro s
    have hstep : workerRequest s p.start p.finish p.now p.reply =
        UpdateStats s (pollCall p).now (pollCall p).duration (pollCall p).size
          (pollCall p).success := rfl
    simp only [applyPolls, List.map_cons, applyCalls, hstep]
    cases UpdateStats s (pollCall p).now (pollCall p).duration (pollCall p).size
        (pollCall p).success with
    | none => rfl
    | some s1 => exact ih s1

/-- Polls that are all answered with status 500 make no successful call. -/
theorem successes_polls_500 (ps : List Poll)
    (h500 : ∀ p ∈ ps, ∃ b, p.reply = Reply.response 500 b) :
    successes (ps.map pollCall) = 0 := by
  unfold successes
  rw [List.length_eq_zero, List.filter_eq_nil_iff]
  intro c hc
  obtain ⟨p, hp, rfl⟩ := List.mem_map.mp hc
  obtain ⟨b, hb⟩ := h500 p hp
  have hd : decide ((500 : Int) ≥ 200 ∧ (500 : Int) < 400) = false := by decide
  simp [pollCall, workerCall, hb, hd]

/-- C9: with the HTTP result as an input, the `UpdateStats` call of the worker is,
for a request-construction error and for a transport error, the call with
`size = -1` and `success = false`, and for a response with status code `c` and
body `b` the call with `size = number of bytes of b` and
`success = true iff 200 ≤ c < 400`, each with the elapsed time as duration; the
worker applies exactly that call to the site, and a run of polls is the run of
these calls. Hence every run of polls (of a length in the range of the counters)
from a freshly constructed `Site` returns with `TotalCount` equal to the number of
polls and `SuccessCount` equal to the number of polls classified successful, which
is 0 against a URL that always answers 500. -/
theorem worker_classification (start finish now : Int) :
    workerCall start finish now Reply.requestError =
      { now := now, duration := timeSince finish start, size := -1, success := false } ∧
    workerCall start finish now Reply.transportError =
      { now := now, duration := timeSince finish start, size := -1, success := false } ∧
    (∀ (c : Int) (b : List UInt8),
      workerCall start finish now (Reply.response c (some b)) =
        { now := now, duration := timeSince finish start, size := (b.length : Int),
          success := decide (200 ≤ c ∧ c < 400) }) ∧
    (∀ (s : Site) (r : Reply),
      workerRequest s start finish now r =
        UpdateStats s (workerCall start finish now r).now
          (workerCall start finish now r).duration (workerCall start finish now r).size
          (workerCall start finish now r).success) ∧
    (∀ (s : Site) (ps : List Poll), applyPolls s ps = applyCalls s (ps.map pollCall)) ∧
    (∀ (url : String) (t0 : Int) (ps : List Poll), (ps.length : Int) < 2 ^ 63 →
      ∃ s1, applyPolls (NewSite url t0) ps = some s1 ∧
        s1.TotalCount = (ps.length : Int) ∧
        s1.SuccessCount = (successes (ps.map pollCall) : Int) ∧
        ((∀ p ∈ ps, ∃ b, p.reply = Reply.response 500 b) → s1.SuccessCount = 0)) := by
  refine ⟨rfl, rfl, fun c b => rfl, fun s r => rfl,
    fun s ps => applyPolls_eq_applyCalls ps s, fun url t0 ps hlen => ?_⟩
  obtain ⟨s1, h1, ht, hk, -⟩ := applyCalls_counts (ps.map pollCall) (NewSite url t0)
    (le_refl _) (le_refl _) (by simpa [NewSite] using hlen)
  have hk1 : s1.SuccessCount = (successes (ps.map pollCall) : Int) := by
    rw [hk]; simp [NewSite]
  refine ⟨s1, ?_, ?_, hk1, fun h500 => ?_⟩
  · rw [applyPolls_eq_applyCalls]; exact h1
  · rw [ht]; simp [NewSite]
  · rw [hk1, successes_polls_500 ps h500]; rfl

/-- Witness of C9: the poll of `TestMonitor_FailedRequest`, answered with status
500 and a body of 21 bytes, is the call with that size and `success = false`, and
gives the counter field `0/1`. -/
theorem worker_classification_witness :
    workerCall 0 millisecond millisecond (Reply.response 500 (some errorBody)) =
      { now := millisecond, duration := millisecond, size := 21, success := false } ∧
    (∃ s1, applyPolls (NewSite "https://error.com" 0)
        [{ start := 0, finish := millisecond, now := millisecond,
           reply := Reply.response 500 (some errorBody) }] = some s1 ∧
      s1.SuccessCount = 0 ∧ s1.TotalCount = 1) := by
  refine ⟨(worker_classification 0 millisecond millisecond).2.2.1 500 errorBody, ?_⟩
  obtain ⟨s1, h1, ht, -, h0⟩ :=
    (worker_classification 0 0 0).2.2.2.2.2 "https://error.com" 0
      [{ start := 0, finish := millisecond, now := millisecond,
         reply := Reply.response 500 (some errorBody) }] (by decide)
  refine ⟨s1, h1, h0 ?_, ht⟩
  intro p hp
  simp only [List.mem_singleton] at hp
  subst hp
  exact ⟨some errorBody, rfl⟩

/-- C10, the code at the failing input: the worker of `https://slow.example.com`
has a request in flight that the server answers after two seconds with status 200
and the body `Slow response`; `Stop` is called one second into the request. The
request carries the monitor's context, so `cancel()` ends it with an error: the
final table, rendered without clearing the screen, shows `0/1`. The same request,
left to run until the server answers, is recorded as `1/1` with 2000 ms and 13 bytes. -/
theorem stop_cancels_request_in_flight :
    stopInFlight (New ["https://slow.example.com"] (fun _ => 0)) "https://slow.example.com" 0
        { start := 0, finish := second, now := second,
          reply := Reply.response 200 (some slowBody) } =
      some { rows := [["https://slow.example.com", "n/a", "n/a", "n/a", "n/a", "n/a", "n/a",
                       "0/1"]],
             clearScreen := false } ∧
    (workerRequest (NewSite "https://slow.example.com" 0) 0 (2 * second) (2 * second)
        (Reply.response 200 (some slowBody))).map GetStats =
      some ["https://slow.example.com", "2000.00 ms", "2000.00 ms", "2000.00 ms",
            "13 B", "13 B", "13 B", "1/1"] := by
  decide

/-! ## One successful call: the recurrence of the average -/

theorem tdiv_inInt64 {a b : Int} (ha : inInt64 a) (hb : 1 ≤ b) : inInt64 (Int.tdiv a b) := by
  unfold inInt64 at ha ⊢
  rcases le_or_lt 0 a with h | h
  · rw [Int.tdiv_eq_ediv h (by omega)]
    have h0 : 0 ≤ a / b := Int.ediv_nonneg h (by omega)
    have h1 : a / b * b ≤ a := Int.ediv_mul_le _ (by omega)
    have h2 : a / b * 1 ≤ a / b * b := Int.mul_le_mul_of_nonneg_left hb h0
    omega
  · have hneg : Int.tdiv a b = -(Int.tdiv (-a) b) := by
      rw [Int.neg_tdiv, neg_neg]
    rw [hneg, Int.tdiv_eq_ediv (by omega) (by omega)]
    have h0 : 0 ≤ (-a) / b := Int.ediv_nonneg (by omega) (by omega)
    have h1 : (-a) / b * b ≤ -a := Int.ediv_mul_le _ (by omega)
    have h2 : (-a) / b * 1 ≤ (-a) / b * b := Int.mul_le_mul_of_nonneg_left hb h0
    omega

theorem runningAvg_no_overflow (A k x : Int) (hk : 0 ≤ k) (hkb : k + 1 < 2 ^ 63)
    (h1 : inInt64 (A * k)) (h2 : inInt64 (A * k + x)) :
    runningAvg A (wrap64 (k + 1)) x = some (Int.tdiv (A * k + x) (k + 1)) := by
  have hk1 : wrap64 (k + 1) = k + 1 := wrap64_of_inInt64 (by unfold inInt64; omega)
  have hkk : wrap64 (k + 1 - 1) = k := by
    have : k + 1 - 1 = k := by ring
    rw [this]; exact wrap64_of_inInt64 (by unfold inInt64; omega)
  rw [hk1, runningAvg_eq (by omega), hkk, wrap64_of_inInt64 h1, wrap64_of_inInt64 h2,
    wrap64_of_inInt64 (tdiv_inInt64 h2 (by omega))]

/-- C11: on every state with `SuccessCount = k ≥ 0`, for every duration `d` and
size `z` such that the counter, the products `avg * k` and the sums `avg * k + d`,
`avg * k + z` stay within 64 bits, a successful `UpdateStats` returns, increments
`SuccessCount` to `k + 1 ≥ 1` (the divisor, never zero) and sets `AvgDuration` to
`(oldAvgDuration * k + d) / (k + 1)` and `AvgSize` to `(oldAvgSize * k + z) / (k + 1)`
with truncating division, which is `(avg * (successCount - 1) + value) / successCount`
for the incremented `successCount`. -/
theorem UpdateStats_avg_recurrence (s : Site) (now d z : Int)
    (hk : 0 ≤ s.SuccessCount) (hkb : s.SuccessCount + 1 < 2 ^ 63)
    (hd1 : inInt64 (s.AvgDuration * s.SuccessCount))
    (hd2 : inInt64 (s.AvgDuration * s.SuccessCount + d))
    (hz1 : inInt64 (s.AvgSize * s.SuccessCount))
    (hz2 : inInt64 (s.AvgSize * s.SuccessCount + z)) :
    ∃ s1, UpdateStats s now d z true = some s1 ∧
      s1.SuccessCount = s.SuccessCount + 1 ∧ 1 ≤ s1.SuccessCount ∧
      s1.AvgDuration =
        Int.tdiv (s.AvgDuration * s.SuccessCount + d) (s.SuccessCount + 1) ∧
      s1.AvgSize = Int.tdiv (s.AvgSize * s.SuccessCount + z) (s.SuccessCount + 1) ∧
      s1.AvgDuration =
        Int.tdiv (s.AvgDuration * (s1.SuccessCount - 1) + d) s1.SuccessCount ∧
      s1.AvgSize = Int.tdiv (s.AvgSize * (s1.SuccessCount - 1) + z) s1.SuccessCount := by
  have hk1 : wrap64 (s.SuccessCount + 1) = s.SuccessCount + 1 :=
    wrap64_of_inInt64 (by unfold inInt64; omega)
  obtain ⟨s1, h1, -, -, -, hd, -, -, hs, hsc, -, -⟩ :=
    UpdateStats_success s now d z (by rw [hk1]; omega)
  rw [runningAvg_no_overflow _ _ _ hk hkb hd1 hd2] at hd
  rw [runningAvg_no_overflow _ _ _ hk hkb hz1 hz2] at hs
  have hsc1 : s1.SuccessCount = s.SuccessCount + 1 := by rw [hsc, hk1]
  have hpred : s1.SuccessCount - 1 = s.SuccessCount := by rw [hsc1]; ring
  have hdq := (Option.some.inj hd).symm
  have hzq := (Option.some.inj hs).symm
  refine ⟨s1, h1, hsc1, by omega, hdq, hzq, ?_, ?_⟩
  · rw [hpred, hsc1]; exact hdq
  · rw [hpred, hsc1]; exact hzq

/-- Witness of C11: the second call of the test scenario, on the state reached
after the first one, gives the averages 150 ms and 750 bytes. -/
theorem UpdateStats_avg_recurrence_witness :
    ∃ s1, UpdateStats
        { URL := "https://example.com"
          MinDuration := 100000000, AvgDuration := 100000000, MaxDuration := 100000000
          MinSize := 1000, AvgSize := 1000, MaxSize := 1000
          SuccessCount := 1, TotalCount := 1, lastRequest := 1 }
        2 200000000 500 true = some s1 ∧
      s1.SuccessCount = 2 ∧ s1.AvgDuration = 150000000 ∧ s1.AvgSize = 750 := by
  obtain ⟨s1, h1, hsc, -, hd, hz, -, -⟩ := UpdateStats_avg_recurrence
    { URL := "https://example.com"
      MinDuration := 100000000, AvgDuration := 100000000, MaxDuration := 100000000
      MinSize := 1000, AvgSize := 1000, MaxSize := 1000
      SuccessCount := 1, TotalCount := 1, lastRequest := 1 }
    2 200000000 500 (by decide) (by decide) (by decide) (by decide) (by decide) (by decide)
  exact ⟨s1, h1, hsc, hd, hz⟩

/-! ## Sequences of calls: the order of minimum, average and maximum -/

/-- One successful step on a positive value `x`, from statistics that are either
all zero with no success recorded or ordered with a positive minimum; `S` bounds
`k * A` from above and `S + x` fits in 64 bits. -/
theorem stats_step_ordered (mn A mx k x S : Int) (hk : 0 ≤ k) (hkb : k + 1 < 2 ^ 63)
    (hx : 0 < x) (hS : k * A ≤ S) (hSx : S + x < 2 ^ 63)
    (hinv : (k = 0 ∧ mn = 0 ∧ A = 0 ∧ mx = 0) ∨ (0 < k ∧ 0 < mn ∧ mn ≤ A ∧ A ≤ mx)) :
    ∃ q, runningAvg A (wrap64 (k + 1)) x = some q ∧ (k + 1) * q ≤ S + x ∧
      0 < (if mn = 0 ∨ x < mn then x else mn) ∧
      (if mn = 0 ∨ x < mn then x else mn) ≤ q ∧
      q ≤ (if x > mx then x else mx) := by
  have hA : 0 ≤ A := by rcases hinv with ⟨-, -, h, -⟩ | ⟨-, h1, h2, -⟩ <;> omega
  have hAk : 0 ≤ A * k := mul_nonneg hA hk
  have hAkS : A * k ≤ S := by rw [mul_comm]; exact hS
  have hrun := runningAvg_no_overflow A k x hk hkb (by unfold inInt64; omega)
    (by unfold inInt64; omega)
  have hkpos : (0 : Int) < k + 1 := by omega
  rw [Int.tdiv_eq_ediv (by omega) (by omega)] at hrun
  have hqle : (A * k + x) / (k + 1) * (k + 1) ≤ A * k + x := Int.ediv_mul_le _ (by omega)
  refine ⟨(A * k + x) / (k + 1), hrun, by nlinarith, ?_, ?_, ?_⟩
  · split_ifs with hc
    · exact hx
    · push_neg at hc
      rcases hinv with ⟨-, h, -, -⟩ | ⟨-, h, -, -⟩
      · exact absurd h hc.1
      · exact h
  · apply Int.le_ediv_of_mul_le hkpos
    rcases hinv with ⟨h0, h1, h2, h3⟩ | ⟨h0, h1, h2, h3⟩
    · subst h0 h1 h2
      simp
    · have hmk : mn * k ≤ A * k := mul_le_mul_of_nonneg_right h2 hk
      split_ifs with hc
      · have hxm : x ≤ mn := by rcases hc with hc | hc <;> omega
        have hxk : x * k ≤ mn * k := mul_le_mul_of_nonneg_right hxm hk
        linarith
      · push_neg at hc
        linarith [hc.2]
  · apply Int.ediv_le_of_le_mul hkpos
    rcases hinv with ⟨h0, h1, h2, h3⟩ | ⟨h0, h1, h2, h3⟩
    · subst h0 h2 h3
      split_ifs <;> omega
    · have hmk : A * k ≤ mx * k := mul_le_mul_of_nonneg_right h3 hk
      split_ifs with hc
      · have hxk : mx * k ≤ x * k := mul_le_mul_of_nonneg_right (le_of_lt hc) hk
        linarith
      · push_neg at hc
        linarith

theorem UpdateStats_some_count {s : Site} {now duration size : Int} {success : Bool}
    {s1 : Site} (h : UpdateStats s now duration size success = some s1) :
    s1.SuccessCount = (if success then wrap64 (s.SuccessCount + 1) else s.SuccessCount) ∧
    (success = false → s1.AvgDuration = s.AvgDuration ∧ s1.AvgSize = s.AvgSize) := by
  cases success with
  | false =>
    rw [UpdateStats_failure] at h
    cases h
    simp
  | true =>
    by_cases hz : wrap64 (s.SuccessCount + 1) = 0
    · simp [UpdateStats, runningAvg, div64, hz] at h
    · obtain ⟨s2, h2, -, -, -, -, -, -, -, hsc, -, -⟩ :=
        UpdateStats_success s now duration size hz
      rw [h2] at h
      cases h
      simp [hsc]

/-- The order `min ≤ avg ≤ max`, followed along a history whose successful calls
carry positive values, for any triple of statistics `fmin`, `favg`, `fmax` and call
value `g` that `UpdateStats` updates by its three rules. `S` bounds the sum of the
values recorded before the history starts. -/
theorem applyCalls_ordered (fmin favg fmax : Site → Int) (g : Call → Int)
    (hfail : ∀ (s s1 : Site) (c : Call), UpdateStats s c.now c.duration c.size false = some s1 →
      fmin s1 = fmin s ∧ favg s1 = favg s ∧ fmax s1 = fmax s)
    (hsucc : ∀ (s s1 : Site) (c : Call), UpdateStats s c.now c.duration c.size true = some s1 →
      fmin s1 = (if fmin s = 0 ∨ g c < fmin s then g c else fmin s) ∧
      fmax s1 = (if g c > fmax s then g c else fmax s) ∧
      runningAvg (favg s) (wrap64 (s.SuccessCount + 1)) (g c) = some (favg s1))
    (cs : List Call) :
    ∀ (s s2 : Site) (S : Int), (∀ c ∈ cs, c.success = true → 0 < g c) →
      0 ≤ s.SuccessCount → s.SuccessCount + cs.length < 2 ^ 63 →
      s.SuccessCount * favg s ≤ S →
      S + ((cs.filter (fun c => c.success)).map g).sum < 2 ^ 63 →
      ((s.SuccessCount = 0 ∧ fmin s = 0 ∧ favg s = 0 ∧ fmax s = 0) ∨
        (0 < s.SuccessCount ∧ 0 < fmin s ∧ fmin s ≤ favg s ∧ favg s ≤ fmax s)) →
      applyCalls s cs = some s2 →
      fmin s2 ≤ favg s2 ∧ favg s2 ≤ fmax s2 := by
  induction cs with
  | nil =>
    intro s s2 S _ _ _ _ _ hinv h
    simp only [applyCalls, Option.some.injEq] at h
    subst h
    rcases hinv with ⟨-, h1, h2, h3⟩ | ⟨-, -, h2, h3⟩
    · omega
    · exact ⟨h2, h3⟩
  | cons c cs ih =>
    intro s s2 S hpos hk hkb hS hSx hinv h
    obtain ⟨s1, hs1, hs2⟩ := applyCalls_cons_some h
    simp only [List.length_cons, Nat.cast_add, Nat.cast_one] at hkb
    have hpos2 : ∀ c ∈ cs, c.success = true → 0 < g c :=
      fun d hd => hpos d (List.mem_cons_of_mem _ hd)
    have hrest : 0 ≤ ((cs.filter (fun c => c.success)).map g).sum :=
      List.sum_nonneg (by
        intro x hx
        obtain ⟨c1, hc1, rfl⟩ := List.mem_map.mp hx
        obtain ⟨hm, hsx⟩ := List.mem_filter.mp hc1
        exact le_of_lt (hpos2 c1 hm hsx))
    have hcount := (UpdateStats_some_count hs1).1
    cases hc : c.success with
    | false =>
      rw [hc] at hs1 hcount
      simp only [Bool.false_eq_true, if_false] at hcount
      obtain ⟨f1, f2, f3⟩ := hfail s s1 c hs1
      simp only [List.filter_cons, hc, Bool.false_eq_true, if_false] at hSx
      exact ih s1 s2 S hpos2 (by omega) (by omega) (by rw [hcount, f2]; exact hS) hSx
        (by rw [hcount, f1, f2, f3]; exact hinv) hs2
    | true =>
      rw [hc] at hs1 hcount
      simp only [if_true] at hcount
      have hx : 0 < g c := hpos c (List.mem_cons_self _ _) hc
      simp only [List.filter_cons, hc, if_true, List.map_cons, List.sum_cons] at hSx
      obtain ⟨f1, f3, f2⟩ := hsucc s s1 c hs1
      obtain ⟨q, hq, hq1, hq2, hq3, hq4⟩ := stats_step_ordered (fmin s) (favg s) (fmax s)
        s.SuccessCount (g c) S hk (by omega) hx hS (by omega) hinv
      have hfq : favg s1 = q := by
        rw [hq] at f2
        exact (Option.some.inj f2).symm
      have hsc1 : s1.SuccessCount = s.SuccessCount + 1 := by
        rw [hcount]
        exact wrap64_of_inInt64 (by unfold inInt64; omega)
      exact ih s1 s2 (S + g c) hpos2 (by omega) (by omega)
        (by rw [hsc1, hfq]; exact hq1) (by omega)
        (Or.inr ⟨by omega, by rw [f1]; exact hq2, by rw [f1, hfq]; exact hq3,
          by rw [f3, hfq]; exact hq4⟩) hs2

theorem successSum_take_le (g : Call → Int) (cs : List Call) (n : Nat)
    (hnn : ∀ c ∈ cs, c.success = true → 0 ≤ g c) :
    (((cs.take n).filter (fun c => c.success)).map g).sum ≤
      ((cs.filter (fun c => c.success)).map g).sum := by
  have hdrop : 0 ≤ (((cs.drop n).filter (fun c => c.success)).map g).sum :=
    List.sum_nonneg (by
      intro x hx
      obtain ⟨c1, hc1, rfl⟩ := List.mem_map.mp hx
      obtain ⟨hm, hsx⟩ := List.mem_filter.mp hc1
      exact hnn c1 (List.mem_of_mem_drop hm) hsx)
  have hsplit : ((cs.filter (fun c => c.success)).map g).sum =
      (((cs.take n).filter (fun c => c.success)).map g).sum +
        (((cs.drop n).filter (fun c => c.success)).map g).sum := by
    conv_lhs => rw [← List.take_append_drop n cs]
    rw [List.filter_append, List.map_append, List.sum_append]
  omega

/-- C12, as stated, fails. Two successful calls with the non-negative sizes 0 and 5
(durations 3 and 7) leave `MinSize = 5` above `AvgSize = 2`; two successful calls
with the duration `2^63 - 1` leave `AvgDuration = -1` below `MinDuration`. -/
theorem stats_order_counterexample :
    applyCalls (NewSite "https://example.com" 0) [⟨1, 3, 0, true⟩, ⟨2, 7, 5, true⟩] =
      some { URL := "https://example.com"
             MinDuration := 3, AvgDuration := 5, MaxDuration := 7
             MinSize := 5, AvgSize := 2, MaxSize := 5
             SuccessCount := 2, TotalCount := 2, lastRequest := 2 } ∧
    ¬ ((5 : Int) ≤ 2) ∧
    applyCalls (NewSite "https://example.com" 0)
        [⟨1, 9223372036854775807, 1, true⟩, ⟨2, 9223372036854775807, 1, true⟩] =
      some { URL := "https://example.com"
             MinDuration := 9223372036854775807, AvgDuration := -1
             MaxDuration := 9223372036854775807
             MinSize := 1, AvgSize := 1, MaxSize := 1
             SuccessCount := 2, TotalCount := 2, lastRequest := 2 } ∧
    ¬ ((9223372036854775807 : Int) ≤ -1) := by
  decide

/-- C12, amended: for every sequence of `UpdateStats` calls (of a length in the
range of the counters) whose successful calls have strictly positive durations and
sizes with sums that fit in 64 bits, applied to a freshly constructed `Site`, the
state after every call (after the first `n` calls, for every `n`) satisfies
`MinDuration ≤ AvgDuration ≤ MaxDuration` and `MinSize ≤ AvgSize ≤ MaxSize`. -/
theorem stats_ordered_after_every_call (cs : List Call) (url : String) (t0 : Int) (n : Nat)
    (hlen : (cs.length : Int) < 2 ^ 63)
    (hpos : ∀ c ∈ cs, c.success = true → 0 < c.duration ∧ 0 < c.size)
    (hsumd : (successDurations cs).sum < 2 ^ 63) (hsums : (successSizes cs).sum < 2 ^ 63) :
    ∃ s, applyCalls (NewSite url t0) (cs.take n) = some s ∧
      s.MinDuration ≤ s.AvgDuration ∧ s.AvgDuration ≤ s.MaxDuration ∧
      s.MinSize ≤ s.AvgSize ∧ s.AvgSize ≤ s.MaxSize := by
  have hlen2 : ((cs.take n).length : Int) ≤ (cs.length : Int) := by
    have : (cs.take n).length ≤ cs.length := by
      rw [List.length_take]; exact Nat.min_le_right _ _
    exact_mod_cast this
  have hpos2 : ∀ c ∈ cs.take n, c.success = true → 0 < c.duration ∧ 0 < c.size :=
    fun c hc => hpos c (List.mem_of_mem_take hc)
  obtain ⟨s, hs, -, -, -⟩ := applyCalls_counts (cs.take n) (NewSite url t0) (le_refl _)
    (le_refl _) (by simp only [NewSite]; omega)
  have hd := successSum_take_le (fun c => c.duration) cs n
    (fun c hc hcs => le_of_lt (hpos c hc hcs).1)
  have hz := successSum_take_le (fun c => c.size) cs n
    (fun c hc hcs => le_of_lt (hpos c hc hcs).2)
  unfold successDurations at hsumd
  unfold successSizes at hsums
  obtain ⟨d1, d2⟩ := applyCalls_ordered (fun s => s.MinDuration) (fun s => s.AvgDuration)
    (fun s => s.MaxDuration) (fun c => c.duration)
    (fun s s1 c h => ⟨(UpdateStats_some h).2.1, ((UpdateStats_some_count h).2 rfl).1,
      (UpdateStats_some h).2.2.1⟩)
    (fun s s1 c h => ⟨(UpdateStats_some h).2.1, (UpdateStats_some h).2.2.1,
      (UpdateStats_some_avg h).1⟩)
    (cs.take n) (NewSite url t0) s 0 (fun c hc hcs => (hpos2 c hc hcs).1) (le_refl _)
    (by simp only [NewSite]; omega) (by simp [NewSite]) (by omega)
    (Or.inl ⟨rfl, rfl, rfl, rfl⟩) hs
  obtain ⟨z1, z2⟩ := applyCalls_ordered (fun s => s.MinSize) (fun s => s.AvgSize)
    (fun s => s.MaxSize) (fun c => c.size)
    (fun s s1 c h => ⟨(UpdateStats_some h).2.2.2.1, ((UpdateStats_some_count h).2 rfl).2,
      (UpdateStats_some h).2.2.2.2.1⟩)
    (fun s s1 c h => ⟨(UpdateStats_some h).2.2.2.1, (UpdateStats_some h).2.2.2.2.1,
      (UpdateStats_some_avg h).2⟩)
    (cs.take n) (NewSite url t0) s 0 (fun c hc hcs => (hpos2 c hc hcs).2) (le_refl _)
    (by simp only [NewSite]; omega) (by simp [NewSite]) (by omega)
    (Or.inl ⟨rfl, rfl, rfl, rfl⟩) hs
  exact ⟨s, hs, d1, d2, z1, z2⟩

/-- Witness of C12 (amended): the state after each of the three calls of the test
scenario, here after the second one. -/
theorem stats_ordered_after_every_call_witness :
    ∃ s, applyCalls (NewSite "https://example.com" 0) (scenarioCalls.take 2) = some s ∧
      s.MinDuration ≤ s.AvgDuration ∧ s.AvgDuration ≤ s.MaxDuration ∧
      s.MinSize ≤ s.AvgSize ∧ s.AvgSize ≤ s.MaxSize :=
  stats_ordered_after_every_call scenarioCalls "https://example.com" 0 2
    (by decide) (by decide) (by decide) (by decide)

end CatchHotels
